import Mathlib

/-!
Verification development for the hypersim 4D rendering pipeline.

The definitions below are a shallow embedding of the Python sources:
  - src/hypersim/core/math_4d.py        (vectors, matrices, projection, look-at)
  - src/hypersim/core/math_utils.py     (duplicate projection helper)
  - src/hypersim/core/shape_4d.py       (Shape4D pose, transform cache)
  - src/hypersim/objects/hypercube.py   (Hypercube vertices/edges/transform)
  - src/hypersim/visualization/renderers/pygame/core/camera.py
  - src/hypersim/visualization/renderers/pygame/graphics/primitives/lines.py
Machine floats are modelled as exact rationals (or reals where trigonometry
is involved); numpy arrays of shape (4,) and (4,4) become `Vec4` and `Mat4`.
-/

namespace Hypersim

/-- A 4D vector, mirroring a numpy array of shape (4,). -/
structure Vec4 (α : Type) where
  x : α
  y : α
  z : α
  w : α
deriving DecidableEq

/-- A 3D vector, mirroring a numpy array of shape (3,). -/
structure Vec3 (α : Type) where
  x : α
  y : α
  z : α
deriving DecidableEq

/-- A 4×4 matrix given by its four rows, mirroring a numpy array of shape (4,4). -/
structure Mat4 (α : Type) where
  r0 : Vec4 α
  r1 : Vec4 α
  r2 : Vec4 α
  r3 : Vec4 α
deriving DecidableEq

variable {α : Type} [CommRing α]

/-- Dot product of two 4D vectors. -/
def dot (a b : Vec4 α) : α := a.x * b.x + a.y * b.y + a.z * b.z + a.w * b.w

/-- Componentwise sum of two 4D vectors. -/
def Vec4.add (a b : Vec4 α) : Vec4 α := ⟨a.x + b.x, a.y + b.y, a.z + b.z, a.w + b.w⟩

/-- Componentwise difference of two 4D vectors. -/
def Vec4.sub (a b : Vec4 α) : Vec4 α := ⟨a.x - b.x, a.y - b.y, a.z - b.z, a.w - b.w⟩

/-- Column 0 of a matrix. -/
def Mat4.col0 (m : Mat4 α) : Vec4 α := ⟨m.r0.x, m.r1.x, m.r2.x, m.r3.x⟩

/-- Column 1 of a matrix. -/
def Mat4.col1 (m : Mat4 α) : Vec4 α := ⟨m.r0.y, m.r1.y, m.r2.y, m.r3.y⟩

/-- Column 2 of a matrix. -/
def Mat4.col2 (m : Mat4 α) : Vec4 α := ⟨m.r0.z, m.r1.z, m.r2.z, m.r3.z⟩

/-- Column 3 of a matrix (`transform[:4, 3]` in numpy slicing). -/
def Mat4.col3 (m : Mat4 α) : Vec4 α := ⟨m.r0.w, m.r1.w, m.r2.w, m.r3.w⟩

/-- Matrix product, `np.dot(A, B)` on 4×4 arrays. -/
def matMul (A B : Mat4 α) : Mat4 α :=
  ⟨⟨dot A.r0 B.col0, dot A.r0 B.col1, dot A.r0 B.col2, dot A.r0 B.col3⟩,
   ⟨dot A.r1 B.col0, dot A.r1 B.col1, dot A.r1 B.col2, dot A.r1 B.col3⟩,
   ⟨dot A.r2 B.col0, dot A.r2 B.col1, dot A.r2 B.col2, dot A.r2 B.col3⟩,
   ⟨dot A.r3 B.col0, dot A.r3 B.col1, dot A.r3 B.col2, dot A.r3 B.col3⟩⟩

/-- Matrix-vector product, `transform @ vertex` on a (4,) array. -/
def mulVec (A : Mat4 α) (v : Vec4 α) : Vec4 α :=
  ⟨dot A.r0 v, dot A.r1 v, dot A.r2 v, dot A.r3 v⟩

/-- The identity matrix `np.eye(4)`. -/
def idMat : Mat4 α := ⟨⟨1, 0, 0, 0⟩, ⟨0, 1, 0, 0⟩, ⟨0, 0, 1, 0⟩, ⟨0, 0, 0, 1⟩⟩

/-- The all-zero 4×4 matrix. -/
def zeroMat : Mat4 α := ⟨⟨0, 0, 0, 0⟩, ⟨0, 0, 0, 0⟩, ⟨0, 0, 0, 0⟩, ⟨0, 0, 0, 0⟩⟩

/-- The zero 4D vector `np.zeros(4)`. -/
def zero4 : Vec4 α := ⟨0, 0, 0, 0⟩

theorem matMul_id_left (A : Mat4 α) : matMul idMat A = A := by
  obtain ⟨⟨a, b, c, d⟩, ⟨e, f, g, h⟩, ⟨i, j, k, l⟩, ⟨m, n, o, p⟩⟩ := A
  simp only [matMul, dot, idMat, Mat4.col0, Mat4.col1, Mat4.col2, Mat4.col3,
    Mat4.mk.injEq, Vec4.mk.injEq]
  and_intros <;> ring

theorem matMul_id_right (A : Mat4 α) : matMul A idMat = A := by
  obtain ⟨⟨a, b, c, d⟩, ⟨e, f, g, h⟩, ⟨i, j, k, l⟩, ⟨m, n, o, p⟩⟩ := A
  simp only [matMul, dot, idMat, Mat4.col0, Mat4.col1, Mat4.col2, Mat4.col3,
    Mat4.mk.injEq, Vec4.mk.injEq]
  and_intros <;> ring

theorem matMul_assoc (A B C : Mat4 α) :
    matMul (matMul A B) C = matMul A (matMul B C) := by
  obtain ⟨⟨a00, a01, a02, a03⟩, ⟨a10, a11, a12, a13⟩,
    ⟨a20, a21, a22, a23⟩, ⟨a30, a31, a32, a33⟩⟩ := A
  obtain ⟨⟨b00, b01, b02, b03⟩, ⟨b10, b11, b12, b13⟩,
    ⟨b20, b21, b22, b23⟩, ⟨b30, b31, b32, b33⟩⟩ := B
  obtain ⟨⟨c00, c01, c02, c03⟩, ⟨c10, c11, c12, c13⟩,
    ⟨c20, c21, c22, c23⟩, ⟨c30, c31, c32, c33⟩⟩ := C
  simp only [matMul, dot, Mat4.col0, Mat4.col1, Mat4.col2, Mat4.col3,
    Mat4.mk.injEq, Vec4.mk.injEq]
  and_intros <;> ring

/-- Python `int(q)`: truncation toward zero. -/
def py_int (q : ℚ) : ℤ := if 0 ≤ q then ⌊q⌋ else ⌈q⌉

/-- Python 3 `round(q)` with no digits argument: round half to even. -/
def py_round (q : ℚ) : ℤ :=
  let f := ⌊q⌋
  let r := q - f
  if r < 1 / 2 then f
  else if 1 / 2 < r then f + 1
  else if f % 2 = 0 then f else f + 1

theorem py_int_intCast (n : ℤ) : py_int (n : ℚ) = n := by
  unfold py_int
  rcases le_or_lt 0 (n : ℚ) with h | h
  · rw [if_pos h, Int.floor_intCast]
  · rw [if_neg (not_le.mpr h), Int.ceil_intCast]

theorem py_round_intCast (n : ℤ) : py_round (n : ℚ) = n := by
  unfold py_round
  simp [Int.floor_intCast]

/-- The clamped projection denominator of
`math_4d.perspective_projection_4d_to_3d`:
`np.where(np.abs(distance - w) < 1e-6, 1e-6, distance - w)`. -/
def clamped_denominator (distance w : ℚ) : ℚ :=
  if |distance - w| < 1 / 1000000 then 1 / 1000000 else distance - w

/-- Embedding of `hypersim.core.math_4d.perspective_projection_4d_to_3d`
(single-point case): `factor = distance / denominator` with the epsilon-clamped
denominator, applied to the x, y, z coordinates. -/
def perspective_projection_4d_to_3d (p : Vec4 ℚ) (distance : ℚ) : Vec3 ℚ :=
  let factor := distance / clamped_denominator distance p.w
  ⟨p.x * factor, p.y * factor, p.z * factor⟩

/-- Embedding of `hypersim.core.math_utils.perspective_projection_4d_to_3d`
(single-point case): `scale = 1 / (distance - w)` with NO epsilon clamp.
`none` models the non-finite (Inf/NaN) components IEEE division by zero
produces in numpy when `distance - w == 0`. -/
def math_utils_perspective_projection_4d_to_3d (p : Vec4 ℚ) (distance : ℚ) :
    Option (Vec3 ℚ) :=
  if distance - p.w = 0 then none
  else
    let scale := 1 / (distance - p.w)
    some ⟨p.x * scale, p.y * scale, p.z * scale⟩

theorem clamped_denominator_ne_zero (distance w : ℚ) :
    clamped_denominator distance w ≠ 0 := by
  unfold clamped_denominator
  split
  · norm_num
  · rename_i h
    intro h0
    rw [h0] at h
    exact h (by norm_num)

/-- Embedding of the pygame `Camera` state: viewport size, projection distance
and the eye/target/up orientation vectors (`position`, `target`, `up`).
The cached `view_matrix` is not read by `project_4d_to_2d` (the source
assigns `view_point = point_4d`, skipping the 4D look-at), so it is not part
of this record. -/
structure Camera where
  width : ℤ
  height : ℤ
  distance : ℚ
  position : Vec4 ℚ
  target : Vec4 ℚ
  up : Vec4 ℚ
deriving DecidableEq

/-- Common core of `Camera.project_4d_to_2d` as a function of the fields it
actually reads: distance, width and height. -/
def project_aux (distance : ℚ) (width height : ℤ) (p : Vec4 ℚ) : ℤ × ℤ × ℚ :=
  let projected := perspective_projection_4d_to_3d p distance
  (py_int (projected.x * 100 + ((Int.fdiv width 2 : ℤ) : ℚ)),
   py_int (-projected.y * 100 + ((Int.fdiv height 2 : ℤ) : ℚ)),
   projected.z)

/-- Embedding of `Camera.project_4d_to_2d`: the view point is the input point
itself (the source comment reads: using a simple projection that skips the 4D
look-at); it is projected 4D→3D with the camera's `distance`, then mapped to
screen coordinates `int(x*100 + width//2)`, `int(-y*100 + height//2)` with the
3D z returned as depth. -/
def Camera.project_4d_to_2d (c : Camera) (point_4d : Vec4 ℚ) : ℤ × ℤ × ℚ :=
  project_aux c.distance c.width c.height point_4d

theorem project_4d_to_2d_eq_aux (c : Camera) (p : Vec4 ℚ) :
    c.project_4d_to_2d p = project_aux c.distance c.width c.height p := rfl

/-- Depth buffer: a numpy array of shape `(shape0, shape1)` of float depths,
modelled as a total function on integer pixel indices plus its shape. -/
structure ZBuffer where
  shape0 : ℤ
  shape1 : ℤ
  val : ℤ → ℤ → ℚ

/-- Pointwise depth-buffer store `zbuffer[x, y] = z`. -/
def ZBuffer.write (b : ZBuffer) (x y : ℤ) (z : ℚ) : ZBuffer :=
  { b with val := fun i j => if i = x ∧ j = y then z else b.val i j }

/-- The fixed sample count `num_samples = 5` of `draw_line_4d`. -/
def num_samples : ℕ := 5

/-- One depth-sampling loop iteration of `draw_line_4d`: sample index `i`
gives `t = i/(num_samples-1)`, the pixel is truncated with `int(...)` and the
constant `z` is written when the pixel is in bounds and `z` beats the stored
depth (otherwise `continue`). -/
def zb_step (z x1 y1 x2 y2 : ℚ) (acc : ZBuffer × List ((ℤ × ℤ) × ℚ))
    (i : ℕ) : ZBuffer × List ((ℤ × ℤ) × ℚ) :=
  let t : ℚ := (i : ℚ) / ((num_samples : ℚ) - 1)
  let x := py_int (x1 * (1 - t) + x2 * t)
  let y := py_int (y1 * (1 - t) + y2 * t)
  if 0 ≤ x ∧ x < acc.1.shape0 ∧ 0 ≤ y ∧ y < acc.1.shape1 then
    if z < acc.1.val x y then (acc.1.write x y z, acc.2 ++ [((x, y), z)])
    else acc
  else acc

/-- The depth-test block of `draw_line_4d`: `z = min(z1, z2)` and the sampling
loop over `range(num_samples)`, starting from the given buffer with no writes
recorded. -/
def zbuffer_pass (b : ZBuffer) (x1 y1 x2 y2 z1 z2 : ℚ) :
    ZBuffer × List ((ℤ × ℤ) × ℚ) :=
  (List.range num_samples).foldl (zb_step (min z1 z2) x1 y1 x2 y2) (b, [])

/-- Cohen-Sutherland outcode: the four bits `1` (x < min_x), `2` (x > max_x),
`4` (y < min_y), `8` (y > max_y) of `compute_outcode`. -/
structure Outcode where
  left : Bool
  right : Bool
  bottom : Bool
  top : Bool
deriving DecidableEq

/-- Embedding of the nested `compute_outcode` helper of `draw_line_4d`. -/
def compute_outcode (minx maxx miny maxy x y : ℚ) : Outcode :=
  ⟨decide (x < minx), decide (maxx < x), decide (y < miny), decide (maxy < y)⟩

/-- The outcode has no bit set (`not (outcode1 | outcode2)` uses this on the
union of two codes). -/
def Outcode.isZero (o : Outcode) : Bool :=
  !(o.left || o.right || o.bottom || o.top)

/-- The two outcodes share a set bit (`outcode1 & outcode2` nonzero). -/
def Outcode.overlap (o1 o2 : Outcode) : Bool :=
  (o1.left && o2.left) || (o1.right && o2.right) ||
    (o1.bottom && o2.bottom) || (o1.top && o2.top)

/-- The Cohen-Sutherland `while True` loop of `draw_line_4d`, written with
explicit fuel (the loop always terminates in the source; the fuel is large
enough for every case the theorems below exercise). `none` is the fully
outside rejection (the bare `return`), `some` the accepted clipped segment. -/
def cs_clip (minx maxx miny maxy : ℚ) :
    ℕ → ℚ × ℚ → ℚ × ℚ → Option ((ℚ × ℚ) × (ℚ × ℚ))
  | 0, _, _ => none
  | fuel + 1, (x1, y1), (x2, y2) =>
    let o1 := compute_outcode minx maxx miny maxy x1 y1
    let o2 := compute_outcode minx maxx miny maxy x2 y2
    if o1.isZero && o2.isZero then some ((x1, y1), (x2, y2))
    else if o1.overlap o2 then none
    else
      let oc := if !o1.isZero then o1 else o2
      let xy : ℚ × ℚ :=
        if oc.top then (x1 + (x2 - x1) * (maxy - y1) / (y2 - y1), maxy)
        else if oc.bottom then (x1 + (x2 - x1) * (miny - y1) / (y2 - y1), miny)
        else if oc.right then (maxx, y1 + (y2 - y1) * (maxx - x1) / (x2 - x1))
        else if oc.left then (minx, y1 + (y2 - y1) * (minx - x1) / (x2 - x1))
        else (0, 0)
      if oc = o1 then cs_clip minx maxx miny maxy fuel xy (x2, y2)
      else cs_clip minx maxx miny maxy fuel (x1, y1) xy

/-- Near plane constant of `draw_line_4d`. -/
def near_plane : ℚ := 1 / 10

/-- Far plane constant of `draw_line_4d`. -/
def far_plane : ℚ := 100

/-- Viewport padding constant of `draw_line_4d` (pixels). -/
def viewport_padding : ℚ := 100

/-- Fuel used for the Cohen-Sutherland loop. -/
def clip_fuel : ℕ := 10

/-- Observable output of one `draw_line_4d` call: the list of line-draw calls
issued to pygame (endpoints as rounded integer pixels), the resulting depth
buffer, and the depth writes performed. -/
structure LineOutput where
  calls : List ((ℤ × ℤ) × (ℤ × ℤ))
  zbuffer : Option ZBuffer
  writes : List ((ℤ × ℤ) × ℚ)
deriving Inhabited

/-- Embedding of `draw_line_4d` from the point after both endpoints have been
projected by `camera.project_4d_to_2d` (the source then never reads the 4D
inputs again): depth rejection against near/far, near-plane clip, expanded
viewport Cohen-Sutherland clip, optional depth-buffer sampling, and the single
final line-draw call. `sw, sh` are `surface.get_size()`. -/
def draw_line_4d (sw sh : ℤ) (x1 y1 : ℚ) (z1 : ℚ) (x2 y2 : ℚ) (z2 : ℚ)
    (zbuffer : Option ZBuffer) : LineOutput :=
  if z1 < near_plane ∧ z2 < near_plane then ⟨[], zbuffer, []⟩
  else if far_plane < z1 ∧ far_plane < z2 then ⟨[], zbuffer, []⟩
  else
    let st : ℚ × ℚ × ℚ × ℚ × ℚ × ℚ :=
      if z1 < near_plane then
        let t := (near_plane - z1) / (z2 - z1)
        (x1 + t * (x2 - x1), y1 + t * (y2 - y1), near_plane, x2, y2, z2)
      else if z2 < near_plane then
        let t := (near_plane - z2) / (z1 - z2)
        (x1, y1, z1, x2 + t * (x1 - x2), y2 + t * (y1 - y2), near_plane)
      else (x1, y1, z1, x2, y2, z2)
    match st with
    | (a1, b1, c1, a2, b2, c2) =>
      let minx : ℚ := -viewport_padding
      let maxx : ℚ := (sw : ℚ) + viewport_padding
      let miny : ℚ := -viewport_padding
      let maxy : ℚ := (sh : ℚ) + viewport_padding
      match cs_clip minx maxx miny maxy clip_fuel (a1, b1) (a2, b2) with
      | none => ⟨[], zbuffer, []⟩
      | some ((u1, v1), (u2, v2)) =>
        match zbuffer with
        | none =>
          ⟨[((py_round u1, py_round v1), (py_round u2, py_round v2))],
            none, []⟩
        | some b =>
          let r := zbuffer_pass b u1 v1 u2 v2 c1 c2
          ⟨[((py_round u1, py_round v1), (py_round u2, py_round v2))],
            some r.1, r.2⟩

/-- Embedding of `Hypercube._generate_vertices`: the loop nest
`for w in [-1,1]: for z: for y: for x: append([x,y,z,w])`, the whole array
scaled by `size/2`. -/
def generate_vertices {K : Type} [Field K] (size : K) : List (Vec4 K) :=
  ([-1, 1] : List K).flatMap fun w =>
    ([-1, 1] : List K).flatMap fun z =>
      ([-1, 1] : List K).flatMap fun y =>
        ([-1, 1] : List K).map fun x =>
          Vec4.mk (size / 2 * x) (size / 2 * y) (size / 2 * z) (size / 2 * w)

/-- Embedding of `Hypercube._generate_edges`: for each vertex index `i` and
dimension `dim`, `j = i ^ (1 << dim)`, keeping the pair when `i < j`. -/
def generate_edges : List (ℕ × ℕ) :=
  (List.range 16).flatMap fun i =>
    (List.range 4).filterMap fun dim =>
      let j := i ^^^ (1 <<< dim)
      if i < j then some (i, j) else none

/-- Embedding of the `Hypercube` class state: edge size, the stored
`_vertices` array, and the 4×4 `transform` (initialized to `np.eye(4)`). -/
structure Hypercube (K : Type) where
  size : K
  verts : List (Vec4 K)
  transform : Mat4 K

/-- The `Hypercube.__init__` path with no position argument: vertices
generated from `size`, transform the identity. -/
def Hypercube.init {K : Type} [Field K] (size : K) : Hypercube K :=
  ⟨size, generate_vertices size, idMat⟩

/-- Embedding of `Hypercube.get_transformed_vertices`:
`np.dot(self._vertices, self.transform[:4,:4].T) + self.transform[:4,3]`,
i.e. each vertex `v` maps to `transform @ v + transform[:4,3]` (the
translation column is added on top of the full 4×4 product). -/
def Hypercube.get_transformed_vertices {K : Type} [CommRing K]
    (h : Hypercube K) : List (Vec4 K) :=
  h.verts.map fun v => Vec4.add (mulVec h.transform v) h.transform.col3

/-- Number of coordinates in which two 4D rational vectors differ. -/
def diff_count (a b : Vec4 ℚ) : ℕ :=
  (if a.x = b.x then 0 else 1) + (if a.y = b.y then 0 else 1) +
    (if a.z = b.z then 0 else 1) + (if a.w = b.w then 0 else 1)

/-- The xy-plane rotation block of `create_rotation_matrix_4d`. -/
noncomputable def rot_block_xy (θ : ℝ) : Mat4 ℝ :=
  ⟨⟨Real.cos θ, -Real.sin θ, 0, 0⟩, ⟨Real.sin θ, Real.cos θ, 0, 0⟩,
   ⟨0, 0, 1, 0⟩, ⟨0, 0, 0, 1⟩⟩

/-- The xz-plane rotation block of `create_rotation_matrix_4d`. -/
noncomputable def rot_block_xz (θ : ℝ) : Mat4 ℝ :=
  ⟨⟨Real.cos θ, 0, -Real.sin θ, 0⟩, ⟨0, 1, 0, 0⟩,
   ⟨Real.sin θ, 0, Real.cos θ, 0⟩, ⟨0, 0, 0, 1⟩⟩

/-- The xw-plane rotation block of `create_rotation_matrix_4d`. -/
noncomputable def rot_block_xw (θ : ℝ) : Mat4 ℝ :=
  ⟨⟨Real.cos θ, 0, 0, -Real.sin θ⟩, ⟨0, 1, 0, 0⟩,
   ⟨0, 0, 1, 0⟩, ⟨Real.sin θ, 0, 0, Real.cos θ⟩⟩

/-- The yz-plane rotation block of `create_rotation_matrix_4d`. -/
noncomputable def rot_block_yz (θ : ℝ) : Mat4 ℝ :=
  ⟨⟨1, 0, 0, 0⟩, ⟨0, Real.cos θ, -Real.sin θ, 0⟩,
   ⟨0, Real.sin θ, Real.cos θ, 0⟩, ⟨0, 0, 0, 1⟩⟩

/-- The yw-plane rotation block of `create_rotation_matrix_4d`. -/
noncomputable def rot_block_yw (θ : ℝ) : Mat4 ℝ :=
  ⟨⟨1, 0, 0, 0⟩, ⟨0, Real.cos θ, 0, -Real.sin θ⟩,
   ⟨0, 0, 1, 0⟩, ⟨0, Real.sin θ, 0, Real.cos θ⟩⟩

/-- The zw-plane rotation block of `create_rotation_matrix_4d`. -/
noncomputable def rot_block_zw (θ : ℝ) : Mat4 ℝ :=
  ⟨⟨1, 0, 0, 0⟩, ⟨0, 1, 0, 0⟩,
   ⟨0, 0, Real.cos θ, -Real.sin θ⟩, ⟨0, 0, Real.sin θ, Real.cos θ⟩⟩

/-- Embedding of `create_rotation_matrix_4d`: starting from the identity,
each plane whose angle is nonzero multiplies its block on the left, in the
fixed order xy, xz, xw, yz, yw, zw. -/
noncomputable def create_rotation_matrix_4d
    (axy axz axw ayz ayw azw : ℝ) : Mat4 ℝ :=
  let rot : Mat4 ℝ := idMat
  let rot := if axy ≠ 0 then matMul (rot_block_xy axy) rot else rot
  let rot := if axz ≠ 0 then matMul (rot_block_xz axz) rot else rot
  let rot := if axw ≠ 0 then matMul (rot_block_xw axw) rot else rot
  let rot := if ayz ≠ 0 then matMul (rot_block_yz ayz) rot else rot
  let rot := if ayw ≠ 0 then matMul (rot_block_yw ayw) rot else rot
  let rot := if azw ≠ 0 then matMul (rot_block_zw azw) rot else rot
  rot

/-- Embedding of `create_translation_matrix_4d`: `np.eye(4)` with
`matrix[0,3] = x`, `matrix[1,3] = y`, `matrix[2,3] = z` and `matrix[3,3] = w`
(the last assignment overwrites the diagonal 1). -/
def create_translation_matrix_4d {K : Type} [CommRing K]
    (x y z w : K) : Mat4 K :=
  ⟨⟨1, 0, 0, x⟩, ⟨0, 1, 0, y⟩, ⟨0, 0, 1, z⟩, ⟨0, 0, 0, w⟩⟩

/-- Embedding of `create_scale_matrix_4d`: the diagonal matrix of the four
scale factors. -/
def create_scale_matrix_4d {K : Type} [CommRing K]
    (sx sy sz sw : K) : Mat4 K :=
  ⟨⟨sx, 0, 0, 0⟩, ⟨0, sy, 0, 0⟩, ⟨0, 0, sz, 0⟩, ⟨0, 0, 0, sw⟩⟩

/-- The six rotation planes, the keys of `Shape4D.rotation`. -/
inductive Plane where
  | xy
  | xz
  | xw
  | yz
  | yw
  | zw
deriving DecidableEq

/-- The iteration order of `self.rotation.items()`: Python dict insertion
order, fixed by the `Shape4D` dataclass default. -/
def planes_order : List Plane :=
  [Plane.xy, Plane.xz, Plane.xw, Plane.yz, Plane.yw, Plane.zw]

/-- The per-plane rotation matrix `Shape4D._update_transform_matrix` builds:
`create_rotation_matrix_4d` with the given plane's angle set and all other
angles zero. -/
noncomputable def single_plane_rotation (p : Plane) (θ : ℝ) : Mat4 ℝ :=
  match p with
  | Plane.xy => create_rotation_matrix_4d θ 0 0 0 0 0
  | Plane.xz => create_rotation_matrix_4d 0 θ 0 0 0 0
  | Plane.xw => create_rotation_matrix_4d 0 0 θ 0 0 0
  | Plane.yz => create_rotation_matrix_4d 0 0 0 θ 0 0
  | Plane.yw => create_rotation_matrix_4d 0 0 0 0 θ 0
  | Plane.zw => create_rotation_matrix_4d 0 0 0 0 0 θ

/-- Python float modulo by `2*np.pi` (the divisor is positive, so the result
follows the divisor's sign): `x % (2π) = x - 2π * floor(x / 2π)`. -/
noncomputable def mod_two_pi (x : ℝ) : ℝ :=
  x - 2 * Real.pi * ⌊x / (2 * Real.pi)⌋

/-- Embedding of the `Shape4D` dataclass state: the abstract `vertices`
property (fixed per instance), the pose fields, and the transform cache
(`_transform_matrix` and `_transform_dirty`). -/
structure Shape where
  vertices : List (Vec4 ℝ)
  position : Vec4 ℝ
  rotation : Plane → ℝ
  scale : ℝ
  cache : Option (Mat4 ℝ)
  dirty : Bool

/-- The `Shape4D` dataclass defaults: position zero, all six rotation angles
zero, scale 1, no cached matrix, dirty. -/
def init_shape (vs : List (Vec4 ℝ)) : Shape :=
  ⟨vs, ⟨0, 0, 0, 0⟩, fun _ => 0, 1, none, true⟩

/-- Embedding of `Shape4D._update_transform_matrix` as a function of the pose:
identity, then for each plane in dict order whose angle is nonzero the
single-plane rotation multiplied on the left, then (if `scale != 1`) the
uniform scale, then the translation matrix of the position. -/
noncomputable def update_transform_matrix
    (rotation : Plane → ℝ) (scale : ℝ) (position : Vec4 ℝ) : Mat4 ℝ :=
  let m := planes_order.foldl
    (fun m p =>
      if rotation p ≠ 0 then matMul (single_plane_rotation p (rotation p)) m
      else m)
    idMat
  let m :=
    if scale ≠ 1 then matMul (create_scale_matrix_4d scale scale scale scale) m
    else m
  matMul
    (create_translation_matrix_4d position.x position.y position.z position.w)
    m

/-- The matrix `Shape4D._update_transform_matrix` stores for a shape. -/
noncomputable def Shape.update_transform (s : Shape) : Mat4 ℝ :=
  update_transform_matrix s.rotation s.scale s.position

/-- Embedding of `Shape4D.get_transform_matrix`: return the cache when it is
present and clean, otherwise recompute. -/
noncomputable def Shape.get_transform_matrix (s : Shape) : Mat4 ℝ :=
  match s.dirty, s.cache with
  | false, some m => m
  | _, _ => s.update_transform

/-- Embedding of `Shape4D.get_transformed_vertices`:
`[transform @ vertex for vertex in self.vertices]`. -/
noncomputable def Shape.get_transformed_vertices (s : Shape) : List (Vec4 ℝ) :=
  s.vertices.map fun v => mulVec s.get_transform_matrix v

/-- Embedding of `Shape4D.rotate` for a single plane keyword:
adds the delta to the stored angle modulo 2π and marks the pose dirty. -/
noncomputable def Shape.rotate (s : Shape) (p : Plane) (angle : ℝ) : Shape :=
  { s with
    rotation := fun q =>
      if q = p then mod_two_pi (s.rotation p + angle) else s.rotation q,
    dirty := true }

/-- Embedding of `Shape4D.set_rotation` for a single plane keyword:
stores the angle modulo 2π and marks the pose dirty. -/
noncomputable def Shape.set_rotation (s : Shape) (p : Plane) (angle : ℝ) :
    Shape :=
  { s with
    rotation := fun q => if q = p then mod_two_pi angle else s.rotation q,
    dirty := true }

/-- Embedding of `Shape4D.set_scale`: stores the argument unconditionally and
marks the pose dirty (the source performs no validation). -/
def Shape.set_scale (s : Shape) (scale : ℝ) : Shape :=
  { s with scale := scale, dirty := true }

/-- Euclidean norm `np.linalg.norm` of a 4D vector. -/
noncomputable def norm4 (v : Vec4 ℝ) : ℝ :=
  Real.sqrt (v.x * v.x + v.y * v.y + v.z * v.z + v.w * v.w)

/-- Embedding of `normalize_vector`: divide by the norm, except that a vector
of norm 0 is returned unchanged (no error is raised). -/
noncomputable def normalize_vector (v : Vec4 ℝ) : Vec4 ℝ :=
  if norm4 v = 0 then v
  else ⟨v.x / norm4 v, v.y / norm4 v, v.z / norm4 v, v.w / norm4 v⟩

/-- Determinant of a 3×3 matrix given row-wise (`np.linalg.det` on the 3×3
submatrices `cross_product_4d` builds). -/
def det3 (a0 a1 a2 b0 b1 b2 c0 c1 c2 : ℝ) : ℝ :=
  a0 * (b1 * c2 - b2 * c1) - a1 * (b0 * c2 - b2 * c0) + a2 * (b0 * c1 - b1 * c0)

/-- Embedding of `cross_product_4d`: the generalized cross product of three
4D vectors via the four signed 3×3 subdeterminants. -/
def cross_product_4d (a b c : Vec4 ℝ) : Vec4 ℝ :=
  ⟨det3 a.y a.z a.w b.y b.z b.w c.y c.z c.w,
   -det3 a.x a.z a.w b.x b.z b.w c.x c.z c.w,
   det3 a.x a.y a.w b.x b.y b.w c.x c.y c.w,
   -det3 a.x a.y a.z b.x b.y b.z c.x c.y c.z⟩

/-- Embedding of `create_look_at_matrix`: forward/right/up/ana basis built by
`normalize_vector` and `cross_product_4d`, assembled as the rows of the
rotation matrix (every row of `np.eye(4)` is overwritten), composed with the
translation matrix whose full fourth column — including entry `[3,3]` — is
`-eye`. -/
noncomputable def create_look_at_matrix (eye target up : Vec4 ℝ) : Mat4 ℝ :=
  let forward := normalize_vector (Vec4.sub eye target)
  let right := normalize_vector (cross_product_4d up forward zero4)
  let up2 := normalize_vector (cross_product_4d forward right zero4)
  let ana := cross_product_4d right up2 forward
  let rotation : Mat4 ℝ := ⟨right, up2, forward, ana⟩
  let translation : Mat4 ℝ :=
    ⟨⟨1, 0, 0, -eye.x⟩, ⟨0, 1, 0, -eye.y⟩, ⟨0, 0, 1, -eye.z⟩,
     ⟨0, 0, 0, -eye.w⟩⟩
  matMul rotation translation

/-- A rotation-mutating call on a `Shape4D`: either `rotate` (delta-adding)
or `set_rotation`, for one plane keyword. -/
inductive RotOp where
  | rot (p : Plane) (a : ℝ)
  | set (p : Plane) (a : ℝ)

/-- Apply one rotation-mutating call. -/
noncomputable def apply_rot_op (s : Shape) : RotOp → Shape
  | RotOp.rot p a => s.rotate p a
  | RotOp.set p a => s.set_rotation p a

/-- Apply a sequence of rotation-mutating calls in order. -/
noncomputable def apply_rot_ops (s : Shape) (ops : List RotOp) : Shape :=
  ops.foldl apply_rot_op s

theorem mod_two_pi_eq_fract (x : ℝ) :
    mod_two_pi x = 2 * Real.pi * Int.fract (x / (2 * Real.pi)) := by
  have h2 : (2 : ℝ) * Real.pi ≠ 0 := by positivity
  rw [mod_two_pi, Int.fract]
  field_simp

theorem mod_two_pi_nonneg (x : ℝ) : 0 ≤ mod_two_pi x := by
  rw [mod_two_pi_eq_fract]
  have h2 : (0 : ℝ) < 2 * Real.pi := by positivity
  exact mul_nonneg h2.le (Int.fract_nonneg _)

theorem mod_two_pi_lt_two_pi (x : ℝ) : mod_two_pi x < 2 * Real.pi := by
  rw [mod_two_pi_eq_fract]
  have h2 : (0 : ℝ) < 2 * Real.pi := by positivity
  calc 2 * Real.pi * Int.fract (x / (2 * Real.pi))
      < 2 * Real.pi * 1 := by
        exact mul_lt_mul_of_pos_left (Int.fract_lt_one _) h2
    _ = 2 * Real.pi := mul_one _

/-- All six stored angles lie in the half-open interval [0, 2π). -/
def rot_in_range (s : Shape) : Prop :=
  ∀ p, 0 ≤ s.rotation p ∧ s.rotation p < 2 * Real.pi

theorem rot_in_range_apply (s : Shape) (hs : rot_in_range s) (op : RotOp) :
    rot_in_range (apply_rot_op s op) := by
  cases op with
  | rot p a =>
    intro q
    by_cases h : q = p
    · simp only [apply_rot_op, Shape.rotate, h, if_pos rfl]
      exact ⟨mod_two_pi_nonneg _, mod_two_pi_lt_two_pi _⟩
    · simpa only [apply_rot_op, Shape.rotate, if_neg h] using hs q
  | set p a =>
    intro q
    by_cases h : q = p
    · simp only [apply_rot_op, Shape.set_rotation, h, if_pos rfl]
      exact ⟨mod_two_pi_nonneg _, mod_two_pi_lt_two_pi _⟩
    · simpa only [apply_rot_op, Shape.set_rotation, if_neg h] using hs q

theorem rot_in_range_apply_ops (ops : List RotOp) (s : Shape)
    (hs : rot_in_range s) : rot_in_range (apply_rot_ops s ops) := by
  induction ops generalizing s with
  | nil => exact hs
  | cons op rest ih =>
    exact ih (apply_rot_op s op) (rot_in_range_apply s hs op)

/-- C10: starting from the all-zero rotation mapping, any sequence of
`rotate` and `set_rotation` calls with arbitrary real angles keeps every
stored rotation angle of a `Shape4D` inside [0, 2π), for all six planes. -/
theorem C10_angle_invariant (vs : List (Vec4 ℝ)) (ops : List RotOp)
    (p : Plane) :
    0 ≤ (apply_rot_ops (init_shape vs) ops).rotation p ∧
    (apply_rot_ops (init_shape vs) ops).rotation p < 2 * Real.pi := by
  apply rot_in_range_apply_ops
  intro q
  refine ⟨le_refl 0, ?_⟩
  positivity

/-- C4 counterexample: `set_scale(-1.0)` does not fail; it stores -1, so the
stored scale does not stay positive, refuting the claim that every `s <= 0`
is rejected with `InvalidArgument` at the point of mutation. -/
theorem C4_counterexample :
    ((init_shape []).set_scale (-1)).scale = -1 ∧
    ¬ (0 < ((init_shape []).set_scale (-1)).scale) := by
  refine ⟨rfl, ?_⟩
  simp only [init_shape, Shape.set_scale]
  norm_num

/-- C4 amended: `Shape4D.set_scale` performs no validation — for every shape
and every real argument (including non-positive ones) it stores the argument
unchanged and marks the pose dirty; no error path exists in the source. -/
theorem C4_set_scale_unchecked (s : Shape) (x : ℝ) :
    (s.set_scale x).scale = x ∧ (s.set_scale x).dirty = true :=
  ⟨rfl, rfl⟩

theorem look_at_self (e u : Vec4 ℝ) :
    create_look_at_matrix e e u = zeroMat := by
  have hsub : Vec4.sub e e = (zero4 : Vec4 ℝ) := by
    simp [Vec4.sub, zero4]
  have hn0 : norm4 (zero4 : Vec4 ℝ) = 0 := by
    simp [norm4, zero4]
  have hnv : normalize_vector (zero4 : Vec4 ℝ) = zero4 := by
    simp [normalize_vector, hn0]
  have hcb : ∀ a c : Vec4 ℝ, cross_product_4d a zero4 c = (zero4 : Vec4 ℝ) := by
    intro a c
    simp only [cross_product_4d, det3, zero4, Vec4.mk.injEq]
    and_intros <;> ring
  simp only [create_look_at_matrix]
  rw [hsub, hnv, hcb, hnv, hcb, hnv, hcb]
  simp only [matMul, dot, zero4, zeroMat, Mat4.col0, Mat4.col1, Mat4.col2,
    Mat4.col3, Mat4.mk.injEq, Vec4.mk.injEq]
  and_intros <;> ring

/-- C5 counterexample: at the concrete degenerate input eye = target =
(1,2,3,4), `create_look_at_matrix` does not fail — `normalize_vector` maps
the zero forward vector to itself and the function returns the all-zero
matrix, an ordinary `Matrix4` value. -/
theorem C5_counterexample :
    create_look_at_matrix ⟨1, 2, 3, 4⟩ ⟨1, 2, 3, 4⟩ ⟨0, 1, 0, 0⟩ = zeroMat :=
  look_at_self _ _

/-- C5 amended: for every eye and up vector, the 4D look-at with
eye == target does not raise; `normalize_vector` returns the zero-length
forward vector unchanged, every basis row collapses to zero, and the function
returns the zero matrix — callers receive it silently. -/
theorem C5_look_at_zero_matrix (eye up : Vec4 ℝ) :
    create_look_at_matrix eye eye up = zeroMat :=
  look_at_self eye up

/-- The projected screen output claimed by the spec to depend on the camera
orientation: C2 as stated, i.e. some point and two camera states agreeing on
distance, width and height but differing in eye, target or up produce
different `project_4d_to_2d` outputs. -/
def claim_c2 : Prop :=
  ∃ (p : Vec4 ℚ) (c1 c2 : Camera),
    c1.distance = c2.distance ∧ c1.width = c2.width ∧
    c1.height = c2.height ∧
    (c1.position ≠ c2.position ∨ c1.target ≠ c2.target ∨ c1.up ≠ c2.up) ∧
    c1.project_4d_to_2d p ≠ c2.project_4d_to_2d p

/-- C2 counterexample: the claim is false — `Camera.project_4d_to_2d` reads
only distance, width and height (the view transform is skipped), so no such
pair of camera states exists. -/
theorem C2_counterexample : ¬ claim_c2 := by
  rintro ⟨p, c1, c2, hd, hw, hh, -, hne⟩
  exact hne (by
    rw [project_4d_to_2d_eq_aux, project_4d_to_2d_eq_aux, hd, hw, hh])

/-- C2 amended: `Camera.project_4d_to_2d` is independent of eye, target and
up — any two camera states agreeing on distance, width and height produce
identical projected outputs for every point (the source skips the 4D look-at
and projects the raw point). -/
theorem C2_projection_ignores_view (c1 c2 : Camera) (p : Vec4 ℚ)
    (hd : c1.distance = c2.distance) (hw : c1.width = c2.width)
    (hh : c1.height = c2.height) :
    c1.project_4d_to_2d p = c2.project_4d_to_2d p := by
  rw [project_4d_to_2d_eq_aux, project_4d_to_2d_eq_aux, hd, hw, hh]

/-- A camera at the default orientation. -/
def cam_a : Camera := ⟨800, 600, 5, ⟨0, 0, -10, 0⟩, ⟨0, 0, 0, 0⟩, ⟨0, 1, 0, 0⟩⟩

/-- A camera with a different eye but the same distance and viewport. -/
def cam_b : Camera := ⟨800, 600, 5, ⟨3, 1, -7, 2⟩, ⟨0, 0, 0, 0⟩, ⟨0, 1, 0, 0⟩⟩

/-- C2 witness: two concrete camera states differing in eye but agreeing on
distance/width/height give the same projection of (1,2,3,0). -/
theorem C2_witness :
    (cam_a.distance = cam_b.distance ∧ cam_a.width = cam_b.width ∧
      cam_a.height = cam_b.height ∧ cam_a.position ≠ cam_b.position) ∧
    cam_a.project_4d_to_2d ⟨1, 2, 3, 0⟩ = cam_b.project_4d_to_2d ⟨1, 2, 3, 0⟩ :=
  ⟨⟨rfl, rfl, rfl, by decide⟩,
    C2_projection_ignores_view cam_a cam_b _ rfl rfl rfl⟩

/-- C6 counterexample: the duplicate projector
`math_utils.perspective_projection_4d_to_3d` has no epsilon clamp; at
p = (1,2,3,5) and distance 5 (so p.w == distance > 0) its denominator is
zero and the output components are non-finite. -/
theorem C6_counterexample :
    (0 : ℚ) < 5 ∧ (Vec4.mk (1 : ℚ) 2 3 5).w = 5 ∧
    math_utils_perspective_projection_4d_to_3d ⟨1, 2, 3, 5⟩ 5 = none := by
  refine ⟨by norm_num, rfl, ?_⟩
  simp [math_utils_perspective_projection_4d_to_3d]

/-- C6 amended: for the core projector
`math_4d.perspective_projection_4d_to_3d`, at `p.w == distance` the
denominator is clamped to the nonzero epsilon 1e-6, so no division by zero
occurs and the result is the finite value `p.xyz * (distance / 1e-6)`; the
`math_utils` duplicate lacks this clamp. -/
theorem C6_clamped_projection (p : Vec4 ℚ) (d : ℚ) (hd : 0 < d)
    (hw : p.w = d) :
    clamped_denominator d p.w = 1 / 1000000 ∧
    clamped_denominator d p.w ≠ 0 ∧
    perspective_projection_4d_to_3d p d =
      ⟨p.x * (d / (1 / 1000000)), p.y * (d / (1 / 1000000)),
       p.z * (d / (1 / 1000000))⟩ := by
  have h1 : clamped_denominator d p.w = 1 / 1000000 := by
    unfold clamped_denominator
    rw [hw, sub_self]
    norm_num
  refine ⟨h1, by rw [h1]; norm_num, ?_⟩
  unfold perspective_projection_4d_to_3d
  rw [h1]

/-- C6 witness: the amended theorem at p = (1,2,3,5), distance 5. -/
theorem C6_witness :
    (0 : ℚ) < 5 ∧
    clamped_denominator 5 (Vec4.mk (1 : ℚ) 2 3 5).w = 1 / 1000000 ∧
    clamped_denominator 5 (Vec4.mk (1 : ℚ) 2 3 5).w ≠ 0 ∧
    perspective_projection_4d_to_3d ⟨1, 2, 3, 5⟩ 5 =
      ⟨1 * ((5 : ℚ) / (1 / 1000000)), 2 * ((5 : ℚ) / (1 / 1000000)),
       3 * ((5 : ℚ) / (1 / 1000000))⟩ :=
  ⟨by norm_num, C6_clamped_projection ⟨1, 2, 3, 5⟩ 5 (by norm_num) rfl⟩

/-- A `Shape4D` with the single base vertex (0,0,0,1) and the default pose:
position (0,0,0,0), all six angles 0, scale 1. -/
def c1_shape : Shape :=
  ⟨[⟨0, 0, 0, 1⟩], ⟨0, 0, 0, 0⟩, fun _ => 0, 1, none, true⟩

/-- C1: evaluating the code at the failing input. With scale 1, zero angles
and position (0,0,0,0), `get_transformed_vertices` maps the base vertex
(0,0,0,1) to (0,0,0,0) — the translation matrix stores `position.w` at entry
[3,3], zeroing the w coordinate — whereas vertex + position is (0,0,0,1).
The transform is not translation by the position vector. -/
theorem C1_translation_code_bug :
    c1_shape.get_transformed_vertices = [⟨0, 0, 0, 0⟩] ∧
    c1_shape.vertices = [⟨0, 0, 0, 1⟩] ∧
    Vec4.add ⟨0, 0, 0, 1⟩ c1_shape.position = ⟨0, 0, 0, 1⟩ ∧
    ((⟨0, 0, 0, 0⟩ : Vec4 ℝ) ≠ ⟨0, 0, 0, 1⟩) := by
  refine ⟨?_, rfl, ?_, ?_⟩
  · simp only [c1_shape, Shape.get_transformed_vertices,
      Shape.get_transform_matrix, Shape.update_transform,
      update_transform_matrix, planes_order, List.foldl, List.map]
    norm_num
    rw [matMul_id_right]
    simp only [create_translation_matrix_4d, mulVec, dot, Vec4.mk.injEq]
    norm_num
  · simp only [c1_shape, Vec4.add, Vec4.mk.injEq]
    norm_num
  · simp only [ne_eq, Vec4.mk.injEq]
    norm_num

/-- A fresh `Hypercube(size=2.0)` over exact rationals: transform is the
identity matrix, no `set_position` call. -/
def c7_hypercube : Hypercube ℚ := Hypercube.init 2

/-- C7: evaluating the code at the failing input. The fresh size-2 hypercube
has 16 world vertices and 32 edges, and every edge joins vertices differing
in exactly one coordinate — but `get_transformed_vertices` adds the identity
transform's fourth column (0,0,0,1) on top of the full 4×4 product, so world
vertex 0 is (-1,-1,-1,0): its w coordinate is 0, not in {-1, 1}. -/
theorem C7_hypercube_code_bug :
    c7_hypercube.get_transformed_vertices.length = 16 ∧
    generate_edges.length = 32 ∧
    (generate_edges.all fun e =>
      match c7_hypercube.get_transformed_vertices.get? e.1,
          c7_hypercube.get_transformed_vertices.get? e.2 with
      | some u, some v => diff_count u v = 1
      | _, _ => false) = true ∧
    c7_hypercube.get_transformed_vertices.head? = some ⟨-1, -1, -1, 0⟩ ∧
    ¬((Vec4.mk (-1 : ℚ) (-1) (-1) 0).w = 1 ∨
      (Vec4.mk (-1 : ℚ) (-1) (-1) 0).w = -1) := by
  have hverts : c7_hypercube.get_transformed_vertices =
      [⟨-1, -1, -1, 0⟩, ⟨1, -1, -1, 0⟩, ⟨-1, 1, -1, 0⟩, ⟨1, 1, -1, 0⟩,
       ⟨-1, -1, 1, 0⟩, ⟨1, -1, 1, 0⟩, ⟨-1, 1, 1, 0⟩, ⟨1, 1, 1, 0⟩,
       ⟨-1, -1, -1, 2⟩, ⟨1, -1, -1, 2⟩, ⟨-1, 1, -1, 2⟩, ⟨1, 1, -1, 2⟩,
       ⟨-1, -1, 1, 2⟩, ⟨1, -1, 1, 2⟩, ⟨-1, 1, 1, 2⟩, ⟨1, 1, 1, 2⟩] := by
    norm_num [c7_hypercube, Hypercube.init, Hypercube.get_transformed_vertices,
      generate_vertices, List.flatMap, mulVec, dot, idMat, Mat4.col3,
      Vec4.add, Vec4.mk.injEq]
  simp only [hverts]
  decide

theorem outcode_zero_of_bounds {minx maxx miny maxy x y : ℚ}
    (h1 : minx ≤ x) (h2 : x ≤ maxx) (h3 : miny ≤ y) (h4 : y ≤ maxy) :
    compute_outcode minx maxx miny maxy x y = ⟨false, false, false, false⟩ := by
  simp only [compute_outcode, Outcode.mk.injEq, decide_eq_false_iff_not]
  exact ⟨not_lt.mpr h1, not_lt.mpr h2, not_lt.mpr h3, not_lt.mpr h4⟩

theorem overlap_not_zero {o1 o2 : Outcode} (h : o1.overlap o2 = true) :
    o1.isZero = false ∧ o2.isZero = false := by
  obtain ⟨a, b, c, d⟩ := o1
  obtain ⟨e, f, g, i⟩ := o2
  revert h
  cases a <;> cases b <;> cases c <;> cases d <;>
    cases e <;> cases f <;> cases g <;> cases i <;> decide

theorem cs_clip_accept (minx maxx miny maxy x1 y1 x2 y2 : ℚ) (fuel : ℕ)
    (hf : fuel ≠ 0)
    (h1 : minx ≤ x1) (h2 : x1 ≤ maxx) (h3 : miny ≤ y1) (h4 : y1 ≤ maxy)
    (h5 : minx ≤ x2) (h6 : x2 ≤ maxx) (h7 : miny ≤ y2) (h8 : y2 ≤ maxy) :
    cs_clip minx maxx miny maxy fuel (x1, y1) (x2, y2) =
      some ((x1, y1), (x2, y2)) := by
  obtain ⟨n, rfl⟩ := Nat.exists_eq_succ_of_ne_zero hf
  simp only [cs_clip, outcode_zero_of_bounds h1 h2 h3 h4,
    outcode_zero_of_bounds h5 h6 h7 h8, Outcode.isZero]
  simp

theorem cs_clip_reject (minx maxx miny maxy x1 y1 x2 y2 : ℚ) (fuel : ℕ)
    (hf : fuel ≠ 0)
    (h : (compute_outcode minx maxx miny maxy x1 y1).overlap
        (compute_outcode minx maxx miny maxy x2 y2) = true) :
    cs_clip minx maxx miny maxy fuel (x1, y1) (x2, y2) = none := by
  obtain ⟨n, rfl⟩ := Nat.exists_eq_succ_of_ne_zero hf
  obtain ⟨hz1, hz2⟩ := overlap_not_zero h
  simp only [cs_clip, hz1, hz2, h, Bool.false_and, Bool.false_eq_true,
    if_false, if_true]

theorem draw_line_4d_inside (sw sh : ℤ) (x1 y1 z1 x2 y2 z2 : ℚ)
    (zb : Option ZBuffer)
    (hz1 : near_plane ≤ z1) (hz1f : z1 ≤ far_plane)
    (hz2 : near_plane ≤ z2) (hz2f : z2 ≤ far_plane)
    (h1 : -viewport_padding ≤ x1) (h2 : x1 ≤ (sw : ℚ) + viewport_padding)
    (h3 : -viewport_padding ≤ y1) (h4 : y1 ≤ (sh : ℚ) + viewport_padding)
    (h5 : -viewport_padding ≤ x2) (h6 : x2 ≤ (sw : ℚ) + viewport_padding)
    (h7 : -viewport_padding ≤ y2) (h8 : y2 ≤ (sh : ℚ) + viewport_padding) :
    draw_line_4d sw sh x1 y1 z1 x2 y2 z2 zb =
      ⟨[((py_round x1, py_round y1), (py_round x2, py_round y2))],
        (match zb with
         | none => none
         | some b => some (zbuffer_pass b x1 y1 x2 y2 z1 z2).1),
        (match zb with
         | none => []
         | some b => (zbuffer_pass b x1 y1 x2 y2 z1 z2).2)⟩ := by
  have hc1 : ¬(z1 < near_plane ∧ z2 < near_plane) := fun hc =>
    absurd hc.1 (not_lt.mpr hz1)
  have hc2 : ¬(far_plane < z1 ∧ far_plane < z2) := fun hc =>
    absurd hc.1 (not_lt.mpr hz1f)
  unfold draw_line_4d
  rw [if_neg hc1, if_neg hc2, if_neg (not_lt.mpr hz1), if_neg (not_lt.mpr hz2)]
  simp only [cs_clip_accept _ _ _ _ _ _ _ _ clip_fuel (by norm_num [clip_fuel])
    h1 h2 h3 h4 h5 h6 h7 h8]
  cases zb <;> rfl

theorem draw_line_4d_outside (sw sh : ℤ) (x1 y1 z1 x2 y2 z2 : ℚ)
    (zb : Option ZBuffer)
    (hz1 : near_plane ≤ z1) (hz1f : z1 ≤ far_plane)
    (hz2 : near_plane ≤ z2) (hz2f : z2 ≤ far_plane)
    (h : (compute_outcode (-viewport_padding) ((sw : ℚ) + viewport_padding)
          (-viewport_padding) ((sh : ℚ) + viewport_padding) x1 y1).overlap
        (compute_outcode (-viewport_padding) ((sw : ℚ) + viewport_padding)
          (-viewport_padding) ((sh : ℚ) + viewport_padding) x2 y2) = true) :
    draw_line_4d sw sh x1 y1 z1 x2 y2 z2 zb = ⟨[], zb, []⟩ := by
  have hc1 : ¬(z1 < near_plane ∧ z2 < near_plane) := fun hc =>
    absurd hc.1 (not_lt.mpr hz1)
  have hc2 : ¬(far_plane < z1 ∧ far_plane < z2) := fun hc =>
    absurd hc.1 (not_lt.mpr hz1f)
  unfold draw_line_4d
  rw [if_neg hc1, if_neg hc2, if_neg (not_lt.mpr hz1), if_neg (not_lt.mpr hz2)]
  simp only [cs_clip_reject _ _ _ _ _ _ _ _ clip_fuel
    (by norm_num [clip_fuel]) h]

/-- C9: when both projected endpoints have depths within [near, far], a
segment with both endpoints beyond the same edge of the clipping rectangle
(the viewport expanded by the source's 100-pixel padding) produces zero
line-draw calls, and a segment with both endpoints inside the viewport
produces exactly one line-draw call with the endpoints unmodified. -/
theorem C9_clipping (sw sh : ℤ) (x1 y1 x2 y2 : ℤ) (z1 z2 : ℚ)
    (zb : Option ZBuffer)
    (hz1 : near_plane ≤ z1) (hz1f : z1 ≤ far_plane)
    (hz2 : near_plane ≤ z2) (hz2f : z2 ≤ far_plane) :
    ((((x1 : ℚ) < -viewport_padding ∧ (x2 : ℚ) < -viewport_padding) ∨
      ((sw : ℚ) + viewport_padding < (x1 : ℚ) ∧
        (sw : ℚ) + viewport_padding < (x2 : ℚ)) ∨
      ((y1 : ℚ) < -viewport_padding ∧ (y2 : ℚ) < -viewport_padding) ∨
      ((sh : ℚ) + viewport_padding < (y1 : ℚ) ∧
        (sh : ℚ) + viewport_padding < (y2 : ℚ))) →
      (draw_line_4d sw sh x1 y1 z1 x2 y2 z2 zb).calls = []) ∧
    ((0 ≤ x1 ∧ x1 ≤ sw ∧ 0 ≤ y1 ∧ y1 ≤ sh ∧
      0 ≤ x2 ∧ x2 ≤ sw ∧ 0 ≤ y2 ∧ y2 ≤ sh) →
      (draw_line_4d sw sh x1 y1 z1 x2 y2 z2 zb).calls =
        [((x1, y1), (x2, y2))]) := by
  constructor
  · intro hout
    have hov : (compute_outcode (-viewport_padding)
        ((sw : ℚ) + viewport_padding) (-viewport_padding)
        ((sh : ℚ) + viewport_padding) (x1 : ℚ) (y1 : ℚ)).overlap
        (compute_outcode (-viewport_padding) ((sw : ℚ) + viewport_padding)
          (-viewport_padding) ((sh : ℚ) + viewport_padding)
          (x2 : ℚ) (y2 : ℚ)) = true := by
      rcases hout with ⟨ha, hb⟩ | ⟨ha, hb⟩ | ⟨ha, hb⟩ | ⟨ha, hb⟩ <;>
        simp only [compute_outcode, Outcode.overlap, decide_eq_true ha,
          decide_eq_true hb, Bool.and_true, Bool.true_and, Bool.true_or,
          Bool.or_true]
    rw [draw_line_4d_outside sw sh _ _ z1 _ _ z2 zb hz1 hz1f hz2 hz2f hov]
  · intro hin
    obtain ⟨g1, g2, g3, g4, g5, g6, g7, g8⟩ := hin
    have pad_pos : (0 : ℚ) < viewport_padding := by norm_num [viewport_padding]
    have c1 : -viewport_padding ≤ (x1 : ℚ) := by
      have : (0 : ℚ) ≤ (x1 : ℚ) := by exact_mod_cast g1
      linarith
    have c2 : (x1 : ℚ) ≤ (sw : ℚ) + viewport_padding := by
      have : (x1 : ℚ) ≤ (sw : ℚ) := by exact_mod_cast g2
      linarith
    have c3 : -viewport_padding ≤ (y1 : ℚ) := by
      have : (0 : ℚ) ≤ (y1 : ℚ) := by exact_mod_cast g3
      linarith
    have c4 : (y1 : ℚ) ≤ (sh : ℚ) + viewport_padding := by
      have : (y1 : ℚ) ≤ (sh : ℚ) := by exact_mod_cast g4
      linarith
    have c5 : -viewport_padding ≤ (x2 : ℚ) := by
      have : (0 : ℚ) ≤ (x2 : ℚ) := by exact_mod_cast g5
      linarith
    have c6 : (x2 : ℚ) ≤ (sw : ℚ) + viewport_padding := by
      have : (x2 : ℚ) ≤ (sw : ℚ) := by exact_mod_cast g6
      linarith
    have c7 : -viewport_padding ≤ (y2 : ℚ) := by
      have : (0 : ℚ) ≤ (y2 : ℚ) := by exact_mod_cast g7
      linarith
    have c8 : (y2 : ℚ) ≤ (sh : ℚ) + viewport_padding := by
      have : (y2 : ℚ) ≤ (sh : ℚ) := by exact_mod_cast g8
      linarith
    rw [draw_line_4d_inside sw sh _ _ z1 _ _ z2 zb hz1 hz1f hz2 hz2f
      c1 c2 c3 c4 c5 c6 c7 c8]
    simp only [py_round_intCast]

/-- C9 witness: concrete segments at depth 20 — one fully to the left of the
clipping rectangle of an 800x600 surface draws nothing, one inside the
viewport draws exactly once with unmodified endpoints. -/
theorem C9_witness :
    (draw_line_4d 800 600 ((-300 : ℤ) : ℚ) ((5 : ℤ) : ℚ) 20 ((-150 : ℤ) : ℚ)
      ((7 : ℤ) : ℚ) 20 none).calls = [] ∧
    (draw_line_4d 800 600 ((10 : ℤ) : ℚ) ((20 : ℤ) : ℚ) 20 ((30 : ℤ) : ℚ)
      ((40 : ℤ) : ℚ) 20 none).calls = [((10, 20), (30, 40))] := by
  constructor
  · exact (C9_clipping 800 600 (-300) 5 (-150) 7 20 20 none
      (by norm_num [near_plane]) (by norm_num [far_plane])
      (by norm_num [near_plane]) (by norm_num [far_plane])).1
      (Or.inl ⟨by norm_num [viewport_padding], by norm_num [viewport_padding]⟩)
  · exact (C9_clipping 800 600 10 20 30 40 20 20 none
      (by norm_num [near_plane]) (by norm_num [far_plane])
      (by norm_num [near_plane]) (by norm_num [far_plane])).2
      (by norm_num)

theorem zb_writes_value (l : List ℕ) (z x1 y1 x2 y2 : ℚ)
    (acc : ZBuffer × List ((ℤ × ℤ) × ℚ)) (hacc : ∀ w ∈ acc.2, w.2 = z) :
    ∀ w ∈ (l.foldl (zb_step z x1 y1 x2 y2) acc).2, w.2 = z := by
  induction l generalizing acc with
  | nil => exact hacc
  | cons i rest ih =>
    refine ih _ ?_
    intro w hw
    simp only [zb_step] at hw
    split at hw
    · split at hw
      · simp only [List.mem_append, List.mem_singleton] at hw
        rcases hw with hw | hw
        · exact hacc w hw
        · rw [hw]
      · exact hacc w hw
    · exact hacc w hw

theorem zbuffer_pass_writes (b : ZBuffer) (x1 y1 x2 y2 z1 z2 : ℚ) :
    ∀ w ∈ (zbuffer_pass b x1 y1 x2 y2 z1 z2).2, w.2 = min z1 z2 :=
  zb_writes_value _ _ _ _ _ _ (b, []) (by simp)

/-- The depth value the spec asserts is written at sample parameter t.
Modelled from the spec: the depth interpolated along the segment. -/
def spec_interpolated_depth (z1 z2 t : ℚ) : ℚ := z1 * (1 - t) + z2 * t

/-- C3 amended: when a depth buffer is provided and the clipped segment is
drawn, the rasterizer samples depth at the fixed `num_samples = 5` points
(at least one), but at each passing pixel it writes the CONSTANT
`min(z1, z2)` — not the depth interpolated at that pixel — whenever that
constant beats the buffer's stored value; the line-draw call is issued
regardless of the per-pixel outcomes. -/
theorem C3_constant_depth (sw sh : ℤ) (x1 y1 x2 y2 : ℤ) (z1 z2 : ℚ)
    (b : ZBuffer)
    (hz1 : near_plane ≤ z1) (hz1f : z1 ≤ far_plane)
    (hz2 : near_plane ≤ z2) (hz2f : z2 ≤ far_plane)
    (hin : 0 ≤ x1 ∧ x1 ≤ sw ∧ 0 ≤ y1 ∧ y1 ≤ sh ∧
      0 ≤ x2 ∧ x2 ≤ sw ∧ 0 ≤ y2 ∧ y2 ≤ sh) :
    1 ≤ num_samples ∧
    (draw_line_4d sw sh x1 y1 z1 x2 y2 z2 (some b)).calls.length = 1 ∧
    ∀ w ∈ (draw_line_4d sw sh x1 y1 z1 x2 y2 z2 (some b)).writes,
      w.2 = min z1 z2 := by
  obtain ⟨g1, g2, g3, g4, g5, g6, g7, g8⟩ := hin
  have pad_pos : (0 : ℚ) < viewport_padding := by norm_num [viewport_padding]
  have cb : ∀ a c : ℤ, 0 ≤ a → a ≤ c →
      -viewport_padding ≤ (a : ℚ) ∧ (a : ℚ) ≤ (c : ℚ) + viewport_padding := by
    intro a c ha hc
    have h0 : (0 : ℚ) ≤ (a : ℚ) := by exact_mod_cast ha
    have h1 : (a : ℚ) ≤ (c : ℚ) := by exact_mod_cast hc
    exact ⟨by linarith, by linarith⟩
  obtain ⟨c1, c2⟩ := cb x1 sw g1 g2
  obtain ⟨c3, c4⟩ := cb y1 sh g3 g4
  obtain ⟨c5, c6⟩ := cb x2 sw g5 g6
  obtain ⟨c7, c8⟩ := cb y2 sh g7 g8
  rw [draw_line_4d_inside sw sh _ _ z1 _ _ z2 (some b) hz1 hz1f hz2 hz2f
    c1 c2 c3 c4 c5 c6 c7 c8]
  refine ⟨by norm_num [num_samples], rfl, ?_⟩
  exact zbuffer_pass_writes b _ _ _ _ z1 z2

/-- A 10×10 depth buffer holding 50 everywhere. -/
def c3_buffer : ZBuffer := ⟨10, 10, fun _ _ => 50⟩

/-- C3 counterexample: for the segment from (0,0) at depth 1 to (4,0) at
depth 3 on an 800×600 surface, all five samples write depth 1 = min(z1,z2);
in particular the final sample at pixel (4,0) (parameter t = 1) writes 1,
while the depth interpolated along the segment there is 3 ≠ 1, refuting the
claim that the interpolated depth is written. -/
theorem C3_counterexample :
    (draw_line_4d 800 600 0 0 1 4 0 3 (some c3_buffer)).writes =
      [((0, 0), 1), ((1, 0), 1), ((2, 0), 1), ((3, 0), 1), ((4, 0), 1)] ∧
    spec_interpolated_depth 1 3 1 = 3 ∧ (1 : ℚ) ≠ 3 := by
  refine ⟨?_, by norm_num [spec_interpolated_depth], by norm_num⟩
  rw [draw_line_4d_inside 800 600 0 0 1 4 0 3 (some c3_buffer)
    (by norm_num [near_plane]) (by norm_num [far_plane])
    (by norm_num [near_plane]) (by norm_num [far_plane])
    (by norm_num [viewport_padding]) (by norm_num [viewport_padding])
    (by norm_num [viewport_padding]) (by norm_num [viewport_padding])
    (by norm_num [viewport_padding]) (by norm_num [viewport_padding])
    (by norm_num [viewport_padding]) (by norm_num [viewport_padding])]
  have hrange : List.range num_samples = [0, 1, 2, 3, 4] := rfl
  simp only [zbuffer_pass, hrange, List.foldl]
  norm_num [zb_step, py_int, ZBuffer.write, c3_buffer, num_samples, min_def]

/-- C3 witness: the amended theorem at the same concrete segment. -/
theorem C3_witness :
    1 ≤ num_samples ∧
    (draw_line_4d 800 600 ((0 : ℤ) : ℚ) ((0 : ℤ) : ℚ) 1 ((4 : ℤ) : ℚ)
      ((0 : ℤ) : ℚ) 3 (some c3_buffer)).calls.length = 1 ∧
    ∀ w ∈ (draw_line_4d 800 600 ((0 : ℤ) : ℚ) ((0 : ℤ) : ℚ) 1 ((4 : ℤ) : ℚ)
      ((0 : ℤ) : ℚ) 3 (some c3_buffer)).writes, w.2 = min 1 3 :=
  C3_constant_depth 800 600 0 0 4 0 1 3 c3_buffer
    (by norm_num [near_plane]) (by norm_num [far_plane])
    (by norm_num [near_plane]) (by norm_num [far_plane])
    (by norm_num)

/-- Dispatch from a plane to its rotation block. -/
noncomputable def rot_block (p : Plane) : ℝ → Mat4 ℝ :=
  match p with
  | Plane.xy => rot_block_xy
  | Plane.xz => rot_block_xz
  | Plane.xw => rot_block_xw
  | Plane.yz => rot_block_yz
  | Plane.yw => rot_block_yw
  | Plane.zw => rot_block_zw

theorem single_plane_rotation_eq (p : Plane) (θ : ℝ) :
    single_plane_rotation p θ =
      if θ ≠ 0 then matMul (rot_block p θ) idMat else idMat := by
  cases p <;>
    simp [single_plane_rotation, create_rotation_matrix_4d, rot_block]

/-- Two angles equal modulo an integer multiple of 2π. -/
def angle_congr (a b : ℝ) : Prop := ∃ k : ℤ, a = b + k * (2 * Real.pi)

theorem angle_congr_cos {a b : ℝ} (h : angle_congr a b) :
    Real.cos a = Real.cos b := by
  obtain ⟨k, hk⟩ := h
  rw [hk, Real.cos_add_int_mul_two_pi]

theorem angle_congr_sin {a b : ℝ} (h : angle_congr a b) :
    Real.sin a = Real.sin b := by
  obtain ⟨k, hk⟩ := h
  rw [hk, Real.sin_add_int_mul_two_pi]

theorem mod_two_pi_congr (x : ℝ) : angle_congr (mod_two_pi x) x := by
  refine ⟨-⌊x / (2 * Real.pi)⌋, ?_⟩
  unfold mod_two_pi
  push_cast
  ring

theorem angle_congr_trans {a b c : ℝ} (h1 : angle_congr a b)
    (h2 : angle_congr b c) : angle_congr a c := by
  obtain ⟨k1, hk1⟩ := h1
  obtain ⟨k2, hk2⟩ := h2
  refine ⟨k1 + k2, ?_⟩
  rw [hk1, hk2]
  push_cast
  ring

theorem angle_congr_add_right {a b : ℝ} (c : ℝ) (h : angle_congr a b) :
    angle_congr (a + c) (b + c) := by
  obtain ⟨k, hk⟩ := h
  exact ⟨k, by rw [hk]; ring⟩

theorem double_rotate_angle (θ a : ℝ) :
    angle_congr (mod_two_pi (mod_two_pi (θ + a) + -a)) θ := by
  have h1 : angle_congr (mod_two_pi (θ + a) + -a) (θ + a + -a) :=
    angle_congr_add_right (-a) (mod_two_pi_congr (θ + a))
  have h2 : θ + a + -a = θ := by ring
  rw [h2] at h1
  exact angle_congr_trans (mod_two_pi_congr _) h1

theorem rot_block_congr (p : Plane) {a b : ℝ} (hc : Real.cos a = Real.cos b)
    (hs : Real.sin a = Real.sin b) : rot_block p a = rot_block p b := by
  cases p <;>
    simp [rot_block, rot_block_xy, rot_block_xz, rot_block_xw, rot_block_yz,
      rot_block_yw, rot_block_zw, hc, hs]

theorem rot_block_id (p : Plane) {a : ℝ} (hc : Real.cos a = 1)
    (hs : Real.sin a = 0) : rot_block p a = idMat := by
  cases p <;>
    simp [rot_block, rot_block_xy, rot_block_xz, rot_block_xw, rot_block_yz,
      rot_block_yw, rot_block_zw, hc, hs, idMat]

theorem rot_step_congr (p : Plane) {θ1 θ2 : ℝ} (h : angle_congr θ1 θ2)
    (M : Mat4 ℝ) :
    (if θ1 ≠ 0 then matMul (single_plane_rotation p θ1) M else M) =
      (if θ2 ≠ 0 then matMul (single_plane_rotation p θ2) M else M) := by
  have hc := angle_congr_cos h
  have hs := angle_congr_sin h
  by_cases h1 : θ1 = 0 <;> by_cases h2 : θ2 = 0
  · rw [if_neg (by simp [h1]), if_neg (by simp [h2])]
  · rw [if_neg (by simp [h1]), if_pos h2]
    rw [h1] at hc hs
    rw [single_plane_rotation_eq, if_pos h2,
      rot_block_id p (by rw [← hc, Real.cos_zero])
        (by rw [← hs, Real.sin_zero]),
      matMul_id_right, matMul_id_left]
  · rw [if_pos h1, if_neg (by simp [h2])]
    rw [h2] at hc hs
    rw [single_plane_rotation_eq, if_pos h1,
      rot_block_id p (by rw [hc, Real.cos_zero]) (by rw [hs, Real.sin_zero]),
      matMul_id_right, matMul_id_left]
  · rw [if_pos h1, if_pos h2, single_plane_rotation_eq,
      single_plane_rotation_eq, if_pos h1, if_pos h2,
      rot_block_congr p hc hs]

theorem update_transform_congr {r1 r2 : Plane → ℝ}
    (h : ∀ p, angle_congr (r1 p) (r2 p)) (sc : ℝ) (pos : Vec4 ℝ) :
    update_transform_matrix r1 sc pos = update_transform_matrix r2 sc pos := by
  unfold update_transform_matrix
  simp only [planes_order, List.foldl]
  rw [rot_step_congr Plane.xy (h Plane.xy), rot_step_congr Plane.xz (h Plane.xz),
    rot_step_congr Plane.xw (h Plane.xw), rot_step_congr Plane.yz (h Plane.yz),
    rot_step_congr Plane.yw (h Plane.yw), rot_step_congr Plane.zw (h Plane.zw)]

/-- The transform cache is coherent: either the pose is marked dirty (a read
will recompute) or the cached matrix reflects the current pose. Every state
reachable through the `Shape4D` mutators satisfies this. -/
def Shape.WF (s : Shape) : Prop :=
  s.dirty = true ∨ s.cache = some s.update_transform

theorem single_plane_rotation_inv (p : Plane) (a : ℝ) :
    matMul (single_plane_rotation p (-a)) (single_plane_rotation p a) =
      idMat := by
  by_cases ha : a = 0
  · rw [ha, neg_zero, single_plane_rotation_eq, if_neg (by simp),
      matMul_id_left]
  · have hna : -a ≠ 0 := neg_ne_zero.mpr ha
    rw [single_plane_rotation_eq, single_plane_rotation_eq, if_pos hna,
      if_pos ha, matMul_id_right, matMul_id_right]
    cases p <;>
      (simp only [rot_block, rot_block_xy, rot_block_xz, rot_block_xw,
        rot_block_yz, rot_block_yw, rot_block_zw, Real.cos_neg, Real.sin_neg,
        matMul, dot, Mat4.col0, Mat4.col1, Mat4.col2, Mat4.col3, idMat,
        Mat4.mk.injEq, Vec4.mk.injEq]
       and_intros <;>
        first
          | ring1
          | linear_combination Real.sin_sq_add_cos_sq a)

/-- Embedding of `Hypercube.rotate`: multiply the rotation matrix of the six
given angles into the stored transform on the left. -/
noncomputable def Hypercube.rotate (h : Hypercube ℝ)
    (axy axz axw ayz ayw azw : ℝ) : Hypercube ℝ :=
  { h with
    transform :=
      matMul (create_rotation_matrix_4d axy axz axw ayz ayw azw) h.transform }

/-- A single-plane `Hypercube.rotate` call, e.g. `rotate(angle_xy=a)`. -/
noncomputable def Hypercube.rotate_plane (h : Hypercube ℝ) (p : Plane)
    (a : ℝ) : Hypercube ℝ :=
  match p with
  | Plane.xy => h.rotate a 0 0 0 0 0
  | Plane.xz => h.rotate 0 a 0 0 0 0
  | Plane.xw => h.rotate 0 0 a 0 0 0
  | Plane.yz => h.rotate 0 0 0 a 0 0
  | Plane.yw => h.rotate 0 0 0 0 a 0
  | Plane.zw => h.rotate 0 0 0 0 0 a

theorem rotate_plane_transform (h : Hypercube ℝ) (p : Plane) (a : ℝ) :
    (h.rotate_plane p a).transform =
      matMul (single_plane_rotation p a) h.transform := by
  cases p <;> rfl

theorem rotate_plane_verts (h : Hypercube ℝ) (p : Plane) (a : ℝ) :
    (h.rotate_plane p a).verts = h.verts := by
  cases p <;> rfl

/-- C8: for every polytope state, every one of the six rotation planes and
every real angle `a`, rotating by `a` and then by `-a` in that plane restores
the world vertices exactly (over exact real arithmetic). First conjunct: any
`Shape4D` with a coherent transform cache; second conjunct: any `Hypercube`
via its matrix-composing `rotate`. -/
theorem C8_rotate_inverse :
    (∀ (s : Shape) (p : Plane) (a : ℝ), s.WF →
      ((s.rotate p a).rotate p (-a)).get_transformed_vertices =
        s.get_transformed_vertices) ∧
    (∀ (h : Hypercube ℝ) (p : Plane) (a : ℝ),
      ((h.rotate_plane p a).rotate_plane p (-a)).get_transformed_vertices =
        h.get_transformed_vertices) := by
  constructor
  · intro s p a hwf
    have hmat :
        ((s.rotate p a).rotate p (-a)).get_transform_matrix =
          s.get_transform_matrix := by
      have hlhs :
          ((s.rotate p a).rotate p (-a)).get_transform_matrix =
            update_transform_matrix
              (((s.rotate p a).rotate p (-a)).rotation) s.scale s.position :=
        rfl
      have hcongr :
          update_transform_matrix
              (((s.rotate p a).rotate p (-a)).rotation) s.scale s.position =
            update_transform_matrix s.rotation s.scale s.position := by

        apply update_transform_congr
        intro q
        by_cases hq : q = p
        · subst hq
          simp only [Shape.rotate, if_pos rfl]
          exact double_rotate_angle (s.rotation q) a
        · simp only [Shape.rotate, if_neg hq]
          exact ⟨0, by push_cast; ring⟩
      rw [hlhs, hcongr]
      rcases hwf with hd | hc
      · have : s.get_transform_matrix = s.update_transform := by
          unfold Shape.get_transform_matrix
          rw [hd]
        rw [this]
        rfl
      · cases hdup : s.dirty
        · unfold Shape.get_transform_matrix
          rw [hdup, hc]
          rfl
        · have : s.get_transform_matrix = s.update_transform := by
            unfold Shape.get_transform_matrix
            rw [hdup]
          rw [this]
          rfl
    unfold Shape.get_transformed_vertices
    rw [hmat]
    rfl
  · intro h p a
    unfold Hypercube.get_transformed_vertices
    rw [rotate_plane_verts, rotate_plane_verts, rotate_plane_transform,
      rotate_plane_transform, ← matMul_assoc, single_plane_rotation_inv,
      matMul_id_left]

/-- C8 witness: the theorem at a concrete dirty shape with one vertex and at
the fresh size-2 hypercube, both rotated by 1 radian and back in one plane. -/
theorem C8_witness :
    (init_shape [⟨1, 0, 0, 0⟩]).WF ∧
    (((init_shape [⟨1, 0, 0, 0⟩]).rotate Plane.xy 1).rotate Plane.xy
        (-1)).get_transformed_vertices =
      (init_shape [⟨1, 0, 0, 0⟩]).get_transformed_vertices ∧
    (((Hypercube.init (2 : ℝ)).rotate_plane Plane.zw 1).rotate_plane Plane.zw
        (-1)).get_transformed_vertices =
      (Hypercube.init (2 : ℝ)).get_transformed_vertices :=
  ⟨Or.inl rfl,
    C8_rotate_inverse.1 (init_shape [⟨1, 0, 0, 0⟩]) Plane.xy 1 (Or.inl rfl),
    C8_rotate_inverse.2 (Hypercube.init (2 : ℝ)) Plane.zw 1⟩

end Hypersim
